import Mathlib

/-!
Verification of the participation-roster core of the bot repository.

The roster is a SQLite table `participants(id INTEGER PRIMARY KEY AUTOINCREMENT,
user_id INTEGER, username TEXT)`. We embed the table state as a list of rows kept
in insertion (rowid) order together with the next autoincrement id. The maximum
capacity `MAX_PARTICIPANTS` and the response texts come from an external
configuration module, so the operations are parameterised over them.
-/

namespace Bot

/-- One row of the `participants` table (`src/bot.py`, `setup_database`). -/
structure ParticipantEntry where
  id : Nat
  user_id : Int
  username : String
deriving DecidableEq, Repr

/-- The state of the `participants` table: rows in insertion (ascending rowid)
order, plus the next value of the `id` autoincrement sequence. -/
structure Roster where
  rows : List ParticipantEntry
  nextId : Nat
deriving DecidableEq, Repr

/-- The freshly created table (`setup_database`): no rows, autoincrement starts at 1. -/
def emptyRoster : Roster := { rows := [], nextId := 1 }

/-- `get_participants_count` (`src/bot.py` lines 46-53): `SELECT COUNT(*) FROM participants`. -/
def get_participants_count (r : Roster) : Nat := r.rows.length

/-- `get_all_participants` (`src/bot.py` lines 132-139): `SELECT username FROM participants`,
rows returned in rowid (insertion) order. -/
def get_all_participants (r : Roster) : List String :=
  r.rows.map (fun e => e.username)

/-- `add_participant` (`src/bot.py` lines 55-84): reject when the current count has
reached `MAX_PARTICIPANTS`, otherwise insert one new row; `cursor.rowcount > 0`
after a successful INSERT, so it returns true. -/
def add_participant (maxParticipants : Nat) (user_id : Int) (username : String)
    (r : Roster) : Bool × Roster :=
  if get_participants_count r ≥ maxParticipants then
    (false, r)
  else
    (true,
      { rows := r.rows ++ [{ id := r.nextId, user_id := user_id, username := username }],
        nextId := r.nextId + 1 })

/-- The rows of one user: `WHERE user_id=?`. -/
def userRows (user_id : Int) (r : Roster) : List ParticipantEntry :=
  r.rows.filter (fun e => e.user_id == user_id)

/-- The subquery of `remove_participant`:
`SELECT id FROM participants WHERE user_id=? ORDER BY id DESC LIMIT 1`,
i.e. the greatest id among the user's rows, if any. -/
def lastEntryId (user_id : Int) (r : Roster) : Option Nat :=
  ((userRows user_id r).map (fun e => e.id)).max?

/-- `remove_participant` (`src/bot.py` lines 86-130): delete the row whose id is the
greatest id belonging to `user_id`; when the subquery is empty the DELETE matches
nothing and `cursor.rowcount` is 0, so it returns false and changes nothing. -/
def remove_participant (user_id : Int) (r : Roster) : Bool × Roster :=
  match lastEntryId user_id r with
  | none => (false, r)
  | some i => (true, { r with rows := r.rows.filter (fun e => e.id != i) })

/-- The database effect shared by `clear_list` (lines 141-158) and `clear_command`
(lines 273-308): `DELETE FROM participants`. The autoincrement sequence is not reset. -/
def clear_list (r : Roster) : Roster := { r with rows := [] }

/-- A roster operation: a "+" message (`Add`) or a "-" message (`RemoveOne`). -/
inductive Op where
  | add (user_id : Int) (username : String)
  | removeOne (user_id : Int)
deriving DecidableEq, Repr

/-- Run one operation, keeping only the resulting state. -/
def runOp (maxParticipants : Nat) (r : Roster) : Op → Roster
  | .add uid name => (add_participant maxParticipants uid name r).2
  | .removeOne uid => (remove_participant uid r).2

/-- Run a sequence of operations from a given state. -/
def runOps (maxParticipants : Nat) (ops : List Op) (r : Roster) : Roster :=
  ops.foldl (runOp maxParticipants) r

/-- Well-formedness of a table state: rowids strictly increase along the rows
(so they are distinct and in insertion order) and are all below the
autoincrement counter. Every reachable state satisfies it. -/
def WF (r : Roster) : Prop :=
  r.rows.Pairwise (fun a b => a.id < b.id) ∧ ∀ e ∈ r.rows, e.id < r.nextId

/-- A newline, used when assembling and splitting rendered text. -/
def newline : String := "\n"

/-- One folding step of the duplicate count
(`participant_counts[name] = participant_counts.get(name, 0) + 1` in
`format_participants_list`): a Python dict keeps first-insertion key order,
so an existing key is updated in place and a new key is appended. -/
def bumpCount (acc : List (String × Nat)) (name : String) : List (String × Nat) :=
  if acc.any (fun p => p.1 == name) then
    acc.map (fun p => if p.1 == name then (p.1, p.2 + 1) else p)
  else
    acc ++ [(name, 1)]

/-- The `participant_counts` dict of `format_participants_list`, as an
association list in first-occurrence order. -/
def participant_counts (participants : List String) : List (String × Nat) :=
  participants.foldl bumpCount []

/-- One rendered line of the roster (`src/bot.py` lines 172-176). -/
def formatEntry (p : String × Nat) : String :=
  let entry := "👤 " ++ p.1
  if p.2 > 1 then entry ++ " (x" ++ toString p.2 ++ ")" else entry

/-- `format_participants_list` (`src/bot.py` lines 160-179). `listEmpty` is the
externally configured `RESPONSES` text for the empty roster. -/
def format_participants_list (listEmpty : String) (maxParticipants : Nat)
    (participants : List String) : String :=
  if participants.isEmpty then listEmpty
  else
    "Участники (" ++ toString participants.length ++ "/" ++ toString maxParticipants
      ++ "):" ++ newline
      ++ String.intercalate newline ((participant_counts participants).map formatEntry)

/-- Modelled from the spec: `RESPONSES` texts are externally supplied constants
(`config.py` is not part of the sources); the empty-roster message is a fixed
string whose exact text is irrelevant to every claim, so we pick a placeholder. -/
def RESPONSES_list_empty : String := "list empty"

/-- The statement that the association list `acc` holds, for every name already
processed (the list `seen`), exactly its number of occurrences in `seen`, with
no duplicate keys. This is the loop invariant of the counting loop in
`format_participants_list`. -/
def CountsInv (seen : List String) (acc : List (String × Nat)) : Prop :=
  (acc.map Prod.fst).Nodup ∧
  (∀ p ∈ acc, p.2 = seen.count p.1 ∧ p.1 ∈ seen) ∧
  (∀ n ∈ seen, n ∈ acc.map Prod.fst)

/-- A one-row sample state, used to instantiate theorems with hypotheses. -/
def rosterA : Roster :=
  { rows := [{ id := 1, user_id := 1, username := "A" }], nextId := 2 }

/-- A two-row sample state of one user, used to instantiate theorems. -/
def rosterAB : Roster :=
  { rows := [{ id := 1, user_id := 1, username := "A" },
             { id := 2, user_id := 1, username := "B" }], nextId := 3 }

/-! ## Helper lemmas -/

theorem count_le_of_runOp (maxParticipants : Nat) (r : Roster) (op : Op)
    (h : get_participants_count r ≤ maxParticipants) :
    get_participants_count (runOp maxParticipants r op) ≤ maxParticipants := by
  cases op with
  | add uid name =>
    by_cases hfull : get_participants_count r ≥ maxParticipants
    · simp [runOp, add_participant, hfull, h]
    · have hlt : get_participants_count r < maxParticipants := Nat.lt_of_not_le hfull
      simp only [runOp, add_participant, if_neg hfull]
      simpa [get_participants_count] using hlt
  | removeOne uid =>
    cases hle : lastEntryId uid r with
    | none => simpa [runOp, remove_participant, hle] using h
    | some i =>
      simp only [runOp, remove_participant, hle]
      exact Nat.le_trans (List.length_filter_le _ _) h

theorem count_le_of_runOps (maxParticipants : Nat) (ops : List Op) (r : Roster)
    (h : get_participants_count r ≤ maxParticipants) :
    get_participants_count (runOps maxParticipants ops r) ≤ maxParticipants := by
  induction ops generalizing r with
  | nil => exact h
  | cons op rest ih =>
    exact ih (runOp maxParticipants r op) (count_le_of_runOp maxParticipants r op h)

theorem WF_empty : WF emptyRoster :=
  ⟨List.Pairwise.nil, fun e he => by simp [emptyRoster] at he⟩

theorem WF_rosterA : WF rosterA := ⟨by decide, by decide⟩

theorem WF_rosterAB : WF rosterAB := ⟨by decide, by decide⟩

theorem WF_add (maxParticipants : Nat) (uid : Int) (name : String) (r : Roster)
    (h : WF r) : WF (add_participant maxParticipants uid name r).2 := by
  by_cases hfull : get_participants_count r ≥ maxParticipants
  · simpa [add_participant, hfull] using h
  · simp only [add_participant, if_neg hfull]
    refine ⟨?_, ?_⟩
    · rw [List.pairwise_append]
      refine ⟨h.1, List.pairwise_singleton _ _, fun a ha b hb => ?_⟩
      simp only [List.mem_singleton] at hb
      subst hb
      exact h.2 a ha
    · intro e he
      rcases List.mem_append.1 he with he | he
      · exact Nat.lt_succ_of_lt (h.2 e he)
      · simp only [List.mem_singleton] at he
        subst he
        exact Nat.lt_succ_self _

theorem WF_remove (uid : Int) (r : Roster) (h : WF r) :
    WF (remove_participant uid r).2 := by
  cases hm : lastEntryId uid r with
  | none => simpa [remove_participant, hm] using h
  | some i =>
    simp only [remove_participant, hm]
    exact ⟨List.Pairwise.sublist (List.filter_sublist _) h.1,
      fun e he => h.2 e (List.mem_of_mem_filter he)⟩

theorem WF_runOp (maxParticipants : Nat) (r : Roster) (op : Op) (h : WF r) :
    WF (runOp maxParticipants r op) := by
  cases op with
  | add uid name => exact WF_add maxParticipants uid name r h
  | removeOne uid => exact WF_remove uid r h

theorem WF_runOps_of_WF (maxParticipants : Nat) (ops : List Op) (r : Roster)
    (h : WF r) : WF (runOps maxParticipants ops r) := by
  induction ops generalizing r with
  | nil => exact h
  | cons op rest ih =>
    exact ih (runOp maxParticipants r op) (WF_runOp maxParticipants r op h)

theorem WF_runOps (maxParticipants : Nat) (ops : List Op) :
    WF (runOps maxParticipants ops emptyRoster) :=
  WF_runOps_of_WF maxParticipants ops emptyRoster WF_empty

theorem remove_of_userRows_nil (uid : Int) (r : Roster) (h : userRows uid r = []) :
    remove_participant uid r = (false, r) := by
  simp [remove_participant, lastEntryId, h]

theorem remove_spec_of_mem (uid : Int) (r : Roster) (hwf : WF r)
    (h : userRows uid r ≠ []) :
    (remove_participant uid r).1 = true ∧
    ∃ l1 e l2, r.rows = l1 ++ e :: l2 ∧
      (remove_participant uid r).2.rows = l1 ++ l2 ∧
      (remove_participant uid r).2.nextId = r.nextId ∧
      e.user_id = uid ∧
      ∀ x ∈ r.rows, x.user_id = uid → x.id ≤ e.id := by
  cases hm : lastEntryId uid r with
  | none =>
    exfalso
    apply h
    unfold lastEntryId at hm
    exact List.map_eq_nil_iff.mp (List.max?_eq_none_iff.mp hm)
  | some m =>
    have hm2 : ((userRows uid r).map (fun e => e.id)).max? = some m := hm
    obtain ⟨hmem, hub⟩ := List.max?_eq_some_iff'.mp hm2
    obtain ⟨e, heUser, heid⟩ := List.mem_map.mp hmem
    obtain ⟨heRows, heuid⟩ := List.mem_filter.mp heUser
    obtain ⟨l1, l2, hsplit⟩ := List.append_of_mem heRows
    have hpw := hwf.1
    rw [hsplit] at hpw
    obtain ⟨pw1, pw2, hcross⟩ := List.pairwise_append.mp hpw
    have hl1 : ∀ a ∈ l1, a.id < e.id := fun a ha => hcross a ha e (List.mem_cons_self e l2)
    have hl2 : ∀ b ∈ l2, e.id < b.id := fun b hb => (List.pairwise_cons.mp pw2).1 b hb
    have hfilter : r.rows.filter (fun x => x.id != m) = l1 ++ l2 := by
      rw [hsplit, List.filter_append, List.filter_cons]
      have he_false : (e.id != m) = false := by simp [heid]
      rw [he_false]
      simp only [Bool.false_eq_true, if_false]
      have h1 : l1.filter (fun x => x.id != m) = l1 :=
        List.filter_eq_self.mpr (fun a ha => by
          have := hl1 a ha
          simp only [bne_iff_ne, ne_eq]
          omega)
      have h2 : l2.filter (fun x => x.id != m) = l2 :=
        List.filter_eq_self.mpr (fun b hb => by
          have := hl2 b hb
          simp only [bne_iff_ne, ne_eq]
          omega)
      rw [h1, h2]
    refine ⟨by simp [remove_participant, hm], l1, e, l2, hsplit, ?_, ?_, ?_, ?_⟩
    · simp only [remove_participant, hm]
      exact hfilter
    · simp [remove_participant, hm]
    · exact beq_iff_eq.mp heuid
    · intro x hx hxu
      have hxUser : x ∈ userRows uid r :=
        List.mem_filter.mpr ⟨hx, beq_iff_eq.mpr hxu⟩
      have : x.id ∈ (userRows uid r).map (fun e => e.id) :=
        List.mem_map_of_mem _ hxUser
      rw [heid]
      exact hub x.id this

theorem countsInv_nil : CountsInv [] [] := by
  refine ⟨List.nodup_nil, ?_, ?_⟩ <;> simp

theorem countsInv_bump (seen : List String) (acc : List (String × Nat)) (n : String)
    (h : CountsInv seen acc) : CountsInv (seen ++ [n]) (bumpCount acc n) := by
  obtain ⟨hnd, hcount, hcover⟩ := h
  by_cases hmem : acc.any (fun p => p.1 == n) = true
  · rw [bumpCount, if_pos hmem]
    have hkeys : (acc.map (fun p => if p.1 == n then (p.1, p.2 + 1) else p)).map Prod.fst
        = acc.map Prod.fst := by
      rw [List.map_map]
      apply List.map_congr_left
      intro p hp
      by_cases hpn : p.1 = n <;> simp [hpn]
    refine ⟨?_, ?_, ?_⟩
    · rw [hkeys]
      exact hnd
    · intro q hq
      obtain ⟨p, hp, hpq⟩ := List.mem_map.mp hq
      obtain ⟨hc, hs⟩ := hcount p hp
      by_cases hpn : p.1 = n
      · have hq2 : q = (p.1, p.2 + 1) := by
          rw [← hpq]
          simp [hpn]
        subst hq2
        refine ⟨?_, by simp [hs]⟩
        simp [List.count_append, List.count_singleton, hc, hpn]
      · have hq2 : q = p := by
          rw [← hpq]
          simp [hpn]
        subst hq2
        refine ⟨?_, by simp [hs]⟩
        simp only [List.count_append, List.count_singleton]
        have hne : (n == q.1) = false := by
          simp only [beq_eq_false_iff_ne, ne_eq]
          exact fun hEq => hpn hEq.symm
        simp [hne, hc]
    · intro m hm
      rw [hkeys]
      rcases List.mem_append.1 hm with hm | hm
      · exact hcover m hm
      · simp only [List.mem_singleton] at hm
        subst hm
        obtain ⟨p, hp, hpn⟩ := List.any_eq_true.mp hmem
        have : p.1 = m := beq_iff_eq.mp hpn
        exact this ▸ List.mem_map_of_mem Prod.fst hp
  · rw [bumpCount, if_neg hmem]
    have hnotkey : n ∉ acc.map Prod.fst := by
      intro hk
      apply hmem
      obtain ⟨p, hp, hpn⟩ := List.mem_map.mp hk
      exact List.any_eq_true.mpr ⟨p, hp, beq_iff_eq.mpr hpn⟩
    have hnotseen : n ∉ seen := fun hs => hnotkey (hcover n hs)
    refine ⟨?_, ?_, ?_⟩
    · rw [List.map_append]
      apply List.Nodup.append hnd (List.nodup_singleton n)
      intro a ha hb
      simp only [List.map_cons, List.map_nil, List.mem_singleton] at hb
      subst hb
      exact hnotkey ha
    · intro q hq
      rcases List.mem_append.1 hq with hq | hq
      · obtain ⟨hc, hs⟩ := hcount q hq
        have hqn : q.1 ≠ n := fun hEq =>
          hnotkey (hEq ▸ List.mem_map_of_mem Prod.fst hq)
        refine ⟨?_, List.mem_append_left _ hs⟩
        simp only [List.count_append, List.count_singleton]
        have hne : (n == q.1) = false := by
          simp only [beq_eq_false_iff_ne, ne_eq]
          exact fun hEq => hqn hEq.symm
        simp [hne, hc]
      · simp only [List.mem_singleton] at hq
        subst hq
        refine ⟨?_, List.mem_append_right _ (List.mem_singleton.mpr rfl)⟩
        simp only [List.count_append, List.count_singleton_self]
        rw [List.count_eq_zero.mpr hnotseen]
    · intro m hm
      rw [List.map_append]
      rcases List.mem_append.1 hm with hm | hm
      · exact List.mem_append_left _ (hcover m hm)
      · simp only [List.mem_singleton] at hm
        subst hm
        apply List.mem_append_right
        simp

theorem countsInv_foldl (l : List String) :
    ∀ (seen : List String) (acc : List (String × Nat)), CountsInv seen acc →
      CountsInv (seen ++ l) (l.foldl bumpCount acc) := by
  induction l with
  | nil =>
    intro seen acc h
    simpa using h
  | cons n rest ih =>
    intro seen acc h
    have h3 := ih (seen ++ [n]) (bumpCount acc n) (countsInv_bump seen acc n h)
    simpa [List.append_assoc] using h3

theorem participant_counts_inv (l : List String) :
    CountsInv l (participant_counts l) := by
  have h := countsInv_foldl l [] [] countsInv_nil
  simpa [participant_counts] using h

/-! ## Claims -/

/-- C1: starting from the empty roster, no sequence of Add and RemoveOne
operations ever makes `Count()` exceed `MAX_PARTICIPANTS`. -/
theorem count_never_exceeds_capacity (maxParticipants : Nat) (ops : List Op) :
    get_participants_count (runOps maxParticipants ops emptyRoster) ≤ maxParticipants :=
  count_le_of_runOps maxParticipants ops emptyRoster (Nat.zero_le _)

/-- C9: `Count()` always equals the length of the sequence returned by
`ListAll()`, duplicate entries included. -/
theorem count_eq_listAll_length (r : Roster) :
    get_participants_count r = (get_all_participants r).length := by
  simp [get_participants_count, get_all_participants]

/-- C7: after `ClearAll()` every entry is gone: the count is 0 and the
listing is empty. -/
theorem clear_yields_empty (r : Roster) :
    get_participants_count (clear_list r) = 0 ∧
    get_all_participants (clear_list r) = [] := by
  constructor <;> simp [clear_list, get_participants_count, get_all_participants]

/-- C5: when the roster is at (or beyond) capacity, Add returns false and
leaves the state completely unchanged: same rows, same ids, same order. -/
theorem add_at_capacity_unchanged (maxParticipants : Nat) (user_id : Int)
    (username : String) (r : Roster)
    (h : get_participants_count r ≥ maxParticipants) :
    add_participant maxParticipants user_id username r = (false, r) := by
  simp [add_participant, h]

/-- C5 witness: adding to a full roster of capacity 1 fails and changes nothing. -/
theorem add_at_capacity_unchanged_witness :
    get_participants_count rosterA ≥ 1 ∧
    add_participant 1 2 "B" rosterA = (false, rosterA) :=
  ⟨by decide, add_at_capacity_unchanged 1 2 "B" rosterA (by decide)⟩

/-- C2: Add returns false when the count has reached `MAX_PARTICIPANTS` (leaving
the state as it was), and otherwise returns true after appending exactly one new
row carrying the given user id and display name, with a fresh id. -/
theorem add_spec (maxParticipants : Nat) (user_id : Int) (username : String)
    (r : Roster) :
    (get_participants_count r ≥ maxParticipants →
      add_participant maxParticipants user_id username r = (false, r)) ∧
    (get_participants_count r < maxParticipants →
      add_participant maxParticipants user_id username r =
        (true,
          { rows := r.rows ++ [{ id := r.nextId, user_id := user_id, username := username }],
            nextId := r.nextId + 1 })) := by
  constructor
  · intro h
    simp [add_participant, h]
  · intro h
    simp only [add_participant]
    rw [if_neg (Nat.not_le.mpr h)]

/-- C2 witness: adding user 7 as "A" to the empty roster under capacity 2
succeeds and appends one row with id 1. -/
theorem add_spec_witness :
    get_participants_count emptyRoster < 2 ∧
    add_participant 2 7 "A" emptyRoster =
      (true, { rows := [{ id := 1, user_id := 7, username := "A" }], nextId := 2 }) :=
  ⟨by decide, (add_spec 2 7 "A" emptyRoster).2 (by decide)⟩

/-- C3: on a well-formed state, RemoveOne returns false and changes nothing
when the user has no rows; when the user has at least one row it returns true
and deletes exactly one row of that user, the one with the greatest id among
the user's rows, leaving every other row in place and in order. -/
theorem removeOne_spec (user_id : Int) (r : Roster) (hwf : WF r) :
    (userRows user_id r = [] → remove_participant user_id r = (false, r)) ∧
    (userRows user_id r ≠ [] →
      (remove_participant user_id r).1 = true ∧
      ∃ l1 e l2, r.rows = l1 ++ e :: l2 ∧
        (remove_participant user_id r).2.rows = l1 ++ l2 ∧
        (remove_participant user_id r).2.nextId = r.nextId ∧
        e.user_id = user_id ∧
        ∀ x ∈ r.rows, x.user_id = user_id → x.id ≤ e.id) :=
  ⟨fun h => remove_of_userRows_nil user_id r h,
   fun h => remove_spec_of_mem user_id r hwf h⟩

/-- C3 witness: on a two-row state of user 1, RemoveOne(1) returns true. -/
theorem removeOne_spec_witness :
    WF rosterAB ∧ userRows 1 rosterAB ≠ [] ∧
    (remove_participant 1 rosterAB).1 = true :=
  ⟨WF_rosterAB, by decide, ((removeOne_spec 1 rosterAB WF_rosterAB).2 (by decide)).1⟩

/-- C6: RemoveOne on a user with zero entries returns false and leaves the
state completely unchanged. -/
theorem removeOne_absent_unchanged (user_id : Int) (r : Roster)
    (h : userRows user_id r = []) :
    remove_participant user_id r = (false, r) :=
  remove_of_userRows_nil user_id r h

/-- C6 witness: user 2 has no rows in the one-row state of user 1, and
RemoveOne(2) returns false and changes nothing. -/
theorem removeOne_absent_unchanged_witness :
    userRows 2 rosterA = [] ∧ remove_participant 2 rosterA = (false, rosterA) :=
  ⟨by decide, removeOne_absent_unchanged 2 rosterA (by decide)⟩

/-- C8: in every reachable state, ListAll returns the display name of every
row, in stored order, and the stored order is ascending id — sorting the rows
by id changes nothing, so the listing is in insertion order. -/
theorem listAll_insertion_order (maxParticipants : Nat) (ops : List Op) :
    get_all_participants (runOps maxParticipants ops emptyRoster) =
      ((runOps maxParticipants ops emptyRoster).rows.mergeSort
        (fun a b => decide (a.id ≤ b.id))).map (fun e => e.username) ∧
    (runOps maxParticipants ops emptyRoster).rows.Pairwise (fun a b => a.id < b.id) := by
  have hpw := (WF_runOps maxParticipants ops).1
  refine ⟨?_, hpw⟩
  rw [List.mergeSort_of_sorted (hpw.imp (fun hab => by simpa using Nat.le_of_lt hab))]
  rfl

/-- C10: whenever Add succeeds on a well-formed state, an immediately
following RemoveOne of the same user returns true and restores exactly the
rows present before the Add: same entries, same ids, same order. -/
theorem add_remove_roundtrip (maxParticipants : Nat) (user_id : Int)
    (username : String) (r : Roster) (hwf : WF r)
    (hsucc : (add_participant maxParticipants user_id username r).1 = true) :
    (remove_participant user_id (add_participant maxParticipants user_id username r).2).1 = true ∧
    (remove_participant user_id (add_participant maxParticipants user_id username r).2).2.rows
      = r.rows := by
  have hlt : ¬ get_participants_count r ≥ maxParticipants := by
    intro hge
    simp [add_participant, hge] at hsucc
  have hadd : (add_participant maxParticipants user_id username r).2 =
      { rows := r.rows ++ [{ id := r.nextId, user_id := user_id, username := username }],
        nextId := r.nextId + 1 } := by
    simp [add_participant, hlt]
  have huser : userRows user_id
      { rows := r.rows ++ [{ id := r.nextId, user_id := user_id, username := username }],
        nextId := r.nextId + 1 } =
      userRows user_id r ++ [{ id := r.nextId, user_id := user_id, username := username }] := by
    simp [userRows, List.filter_append]
  have hmax : lastEntryId user_id
      { rows := r.rows ++ [{ id := r.nextId, user_id := user_id, username := username }],
        nextId := r.nextId + 1 } = some r.nextId := by
    unfold lastEntryId
    rw [huser, List.map_append]
    apply List.max?_eq_some_iff'.mpr
    constructor
    · simp
    · intro b hb
      rcases List.mem_append.1 hb with hb | hb
      · obtain ⟨x, hx, hxid⟩ := List.mem_map.mp hb
        have hxr : x ∈ r.rows := List.mem_of_mem_filter hx
        have := hwf.2 x hxr
        omega
      · simp only [List.map_cons, List.map_nil, List.mem_singleton] at hb
        omega
  have hfilter : (r.rows ++
      ([{ id := r.nextId, user_id := user_id, username := username }] :
        List ParticipantEntry)).filter
      (fun x => x.id != r.nextId) = r.rows := by
    rw [List.filter_append]
    have h1 : r.rows.filter (fun x => x.id != r.nextId) = r.rows :=
      List.filter_eq_self.mpr (fun a ha => by
        have := hwf.2 a ha
        simp only [bne_iff_ne, ne_eq]
        omega)
    have h2 : List.filter (fun x => x.id != r.nextId)
        ([{ id := r.nextId, user_id := user_id, username := username }] :
          List ParticipantEntry) = [] := by
      simp
    rw [h1, h2, List.append_nil]
  rw [hadd]
  constructor
  · simp [remove_participant, hmax]
  · simp only [remove_participant, hmax]
    exact hfilter

/-- C10 witness: under capacity 2, adding user 5 to the one-row state of
user 1 succeeds, and removing user 5 right after restores the original rows. -/
theorem add_remove_roundtrip_witness :
    WF rosterA ∧ (add_participant 2 5 "B" rosterA).1 = true ∧
    (remove_participant 5 (add_participant 2 5 "B" rosterA).2).2.rows = rosterA.rows :=
  ⟨WF_rosterA, by decide, (add_remove_roundtrip 2 5 "B" rosterA WF_rosterA (by decide)).2⟩

/-- C4 counterexample: with two entries both named "A", the roster renders as a
header line followed by the single line "👤 A (x2)" — the code prefixes every
name line with a bullet, so the line is not the bare "A (x2)" the claim states. -/
theorem render_duplicate_counterexample :
    format_participants_list RESPONSES_list_empty 16 ["A", "A"] =
      "Участники (2/16):" ++ newline ++ "👤 A (x2)" ∧
    "Участники (2/16):" ++ newline ++ "👤 A (x2)" ≠
      "Участники (2/16):" ++ newline ++ "A (x2)" := by
  constructor
  · decide
  · decide

/-- C4 (amended): the empty roster renders the fixed empty message; a non-empty
roster renders a header carrying the total entry count and the capacity,
followed by one line per distinct display name, each line being
"👤 name" for a name occurring once and "👤 name (xN)" for a name occurring
N > 1 times, where the association of names to occurrence counts is exact and
duplicate-free; in particular two entries named "A" render the single line
"👤 A (x2)". -/
theorem render_grouped (listEmpty : String) (maxParticipants : Nat)
    (participants : List String) :
    (participants = [] →
      format_participants_list listEmpty maxParticipants participants = listEmpty) ∧
    (participants ≠ [] →
      format_participants_list listEmpty maxParticipants participants =
        "Участники (" ++ toString participants.length ++ "/" ++ toString maxParticipants
          ++ "):" ++ newline
          ++ String.intercalate newline
              ((participant_counts participants).map formatEntry) ∧
      ((participant_counts participants).map Prod.fst).Nodup ∧
      (∀ p ∈ participant_counts participants,
        p.2 = participants.count p.1 ∧ p.1 ∈ participants) ∧
      (∀ n ∈ participants, n ∈ (participant_counts participants).map Prod.fst) ∧
      (∀ p ∈ participant_counts participants,
        formatEntry p =
          if p.2 > 1 then "👤 " ++ p.1 ++ " (x" ++ toString p.2 ++ ")"
          else "👤 " ++ p.1)) := by
  constructor
  · intro h
    simp [format_participants_list, h]
  · intro h
    obtain ⟨hnd, hcount, hcover⟩ := participant_counts_inv participants
    refine ⟨?_, hnd, hcount, hcover, ?_⟩
    · rw [format_participants_list, if_neg]
      simpa using h
    · intro p hp
      by_cases h2 : p.2 > 1 <;> simp [formatEntry, h2]

/-- C4 witness: two entries named "A" render as the header for 2 of 2 followed
by the single line for name "A" with count 2. -/
theorem render_grouped_witness :
    (["A", "A"] : List String) ≠ [] ∧
    format_participants_list RESPONSES_list_empty 2 ["A", "A"] =
      "Участники (" ++ toString (["A", "A"] : List String).length ++ "/" ++ toString (2 : Nat)
        ++ "):" ++ newline
        ++ String.intercalate newline ((participant_counts ["A", "A"]).map formatEntry) :=
  ⟨by decide, ((render_grouped RESPONSES_list_empty 2 ["A", "A"]).2 (by decide)).1⟩

end Bot
